import Mathlib

/-!
Verification of the memory-graph core of `visualize_memory.py` and
`visualize_memory_interactive.py`.

The two scripts parse a line-delimited JSON file into entity and relation
records, build an undirected NetworkX-style graph, analyze it (degree
centrality, most-connected ranking) and detect redundancies (similar names,
sparse entities).  This file gives a shallow embedding of those functions and
proves properties about them.

Modelling conventions:
* A parsed JSON dictionary is modelled by `JsonObj`, which records exactly the
  fields the scripts access, each as an `Option` (a `none` field models a
  missing key; Python's `d['k']` on a missing key raises `KeyError`, modelled
  by the `Except` monad with `PyErr.keyError`).
* The outcome of `json.loads` on a raw input line is part of the input data:
  a `RawLine` carries the raw text and `parsed`, the object `json.loads`
  returns on the stripped text (`none` models a `json.JSONDecodeError`).
  A single input line contains no newline, so the decode error's position is
  line 1 of the parsed document; the error carries the stripped document.
* Python `str.lower` is modelled on ASCII letters (`lowerChar`), Python's
  substring test `a in b` by a scan over the character lists (`charsIn`), and
  `str.strip` by dropping ASCII whitespace from both ends (`pyStrip`).
* `float` arithmetic is modelled by exact rationals (`ℚ`); the values and
  comparisons the claims depend on are exact in IEEE arithmetic as well.
* Python's stable `sorted(..., reverse=True)` is modelled by
  `List.insertionSort` with the reflexive "key is at least" relation, which
  inserts each earlier element before later elements of equal key and is
  therefore stable in the same way.
-/

/-- A parsed JSON dictionary, restricted to the fields the scripts access.
`none` models a missing key (or, for `type?`, a non-string value, which the
scripts treat the same way as a missing one).  The Python key `from` is named
`fromName?` and `to` is named `toName?` because `from` is a Lean keyword. -/
structure JsonObj where
  type? : Option String := none
  name? : Option String := none
  entityType? : Option String := none
  observations? : Option (List String) := none
  fromName? : Option String := none
  toName? : Option String := none
  relationType? : Option String := none
deriving DecidableEq

/-- Python exceptions raised by the modelled code paths. -/
inductive PyErr where
  /-- `KeyError` from `d['k']` with `k` missing. -/
  | keyError (key : String) : PyErr
  /-- `json.JSONDecodeError` from `json.loads`; carries the parsed document
  and the line number of the error position inside that document. -/
  | jsonDecode (doc : String) (lineno : Nat) : PyErr
deriving DecidableEq

/-- One line of the input file, as produced by `readlines`: the raw text plus
the outcome of `json.loads` on the stripped text (`none` = decode error). -/
structure RawLine where
  raw : String
  parsed : Option JsonObj
deriving DecidableEq

/-- Python `str.strip()`: the text with whitespace removed from both ends
(modelled for ASCII whitespace). -/
def pyStrip (s : String) : String :=
  ⟨((s.data.dropWhile Char.isWhitespace).reverse.dropWhile Char.isWhitespace).reverse⟩

/-- Embedding of `load_memory_file` (visualize_memory.py lines 21-37; the
interactive script's copy is identical): skip blank lines, parse each
non-blank line, collect records with type `entity` and type `relation` in
input order.  A line that fails to parse raises `json.JSONDecodeError`, which
aborts the whole load.  A stripped single line contains no newline, so the
decode error position is at line 1 of the parsed document. -/
def load_memory_file : List RawLine → Except PyErr (List JsonObj × List JsonObj)
  | [] => .ok ([], [])
  | l :: ls =>
    if pyStrip l.raw = "" then load_memory_file ls
    else
      match l.parsed with
      | none => .error (.jsonDecode (pyStrip l.raw) 1)
      | some d =>
        match load_memory_file ls with
        | .error e => .error e
        | .ok (es, rs) =>
          if d.type? = some "entity" then .ok (d :: es, rs)
          else if d.type? = some "relation" then .ok (es, d :: rs)
          else .ok (es, rs)

/-- A node of the NetworkX graph: keyed by name, with the attributes the
script sets (`entity_type` and the observation count). -/
structure Node where
  name : String
  entity_type : String
  observations : Nat
deriving DecidableEq

/-- An edge of the NetworkX graph, with its `relation_type` attribute.
`nx.Graph` is undirected and simple: the pair `(u, v)` is unordered and a
second `add_edge` on the same pair only updates the attribute. -/
structure Edge where
  u : String
  v : String
  relation_type : String
deriving DecidableEq

/-- The NetworkX graph: nodes and edges in insertion order (NetworkX stores
both in insertion-ordered dictionaries). -/
structure Graph where
  nodes : List Node := []
  edges : List Edge := []
deriving DecidableEq

/-- The node names of a graph, in insertion order (`G.nodes`). -/
def nodeNames (g : Graph) : List String := g.nodes.map Node.name

/-- `G.add_node(n, entity_type=et, observations=obs)`: inserting an existing
key keeps its position and overwrites the attributes, a new key is appended. -/
def add_node (g : Graph) (n et : String) (obs : Nat) : Graph :=
  if (nodeNames g).contains n then
    { g with nodes := g.nodes.map fun m => if m.name == n then ⟨n, et, obs⟩ else m }
  else
    { g with nodes := g.nodes ++ [⟨n, et, obs⟩] }

/-- Whether an edge joins the unordered pair of endpoints `a, b`. -/
def edgeMatches (a b : String) (e : Edge) : Bool :=
  (e.u == a && e.v == b) || (e.u == b && e.v == a)

/-- `G.add_edge(a, b, relation_type=rt)` (called only with `a, b` already
nodes): a second edge on the same unordered pair overwrites the attribute,
otherwise the edge is appended. -/
def add_edge (g : Graph) (a b rt : String) : Graph :=
  if g.edges.any (edgeMatches a b) then
    { g with edges := g.edges.map fun e =>
        if edgeMatches a b e then { e with relation_type := rt } else e }
  else
    { g with edges := g.edges ++ [⟨a, b, rt⟩] }

/-- The node-building loop of `create_graph` (lines 44-49): for each entity,
evaluate `entity['name']`, `entity['entityType']`, `entity['observations']`
in that order (a missing key raises `KeyError`) and add the node. -/
def addNodes : Graph → List JsonObj → Except PyErr Graph
  | g, [] => .ok g
  | g, e :: es =>
    match e.name? with
    | none => .error (.keyError "name")
    | some n =>
      match e.entityType? with
      | none => .error (.keyError "entityType")
      | some et =>
        match e.observations? with
        | none => .error (.keyError "observations")
        | some obs => addNodes (add_node g n et obs.length) es

/-- The edge-building loop of `create_graph` (lines 52-58):
`if relation['from'] in G.nodes and relation['to'] in G.nodes` with Python's
short-circuit `and` (so `relation['to']` is only evaluated when the first
test passed, and `relation['relationType']` only when both did). -/
def addEdges : Graph → List JsonObj → Except PyErr Graph
  | g, [] => .ok g
  | g, r :: rs =>
    match r.fromName? with
    | none => .error (.keyError "from")
    | some f =>
      if (nodeNames g).contains f then
        match r.toName? with
        | none => .error (.keyError "to")
        | some t =>
          if (nodeNames g).contains t then
            match r.relationType? with
            | none => .error (.keyError "relationType")
            | some rt => addEdges (add_edge g f t rt) rs
          else addEdges g rs
      else addEdges g rs

/-- Embedding of `create_graph` (visualize_memory.py lines 39-60): add one
node per entity, then one edge per relation whose two endpoints are nodes. -/
def create_graph (entities relations : List JsonObj) : Except PyErr Graph :=
  match addNodes {} entities with
  | .error e => .error e
  | .ok g => addEdges g relations

/-- The contribution of one edge to the degree of node `n` (`nx` counts a
self-loop twice). -/
def incid (n : String) (e : Edge) : Nat :=
  (if e.u == n then 1 else 0) + (if e.v == n then 1 else 0)

/-- `G.degree[n]`: the number of edge ends attached to `n`. -/
def degree (g : Graph) (n : String) : Nat :=
  (g.edges.map (incid n)).sum

/-- Embedding of `nx.degree_centrality` as called at line 86 of
visualize_memory.py.  NetworkX's implementation returns `{n: 1 for n in G}`
when `len(G) <= 1` and otherwise `{n: d * (1 / (len(G) - 1))}` in node
insertion order. -/
def degree_centrality (g : Graph) : List (String × ℚ) :=
  if g.nodes.length ≤ 1 then g.nodes.map fun n => (n.name, 1)
  else g.nodes.map fun n => (n.name, (degree g n.name : ℚ) / ((g.nodes.length : ℚ) - 1))

/-- The descending comparison used by `sorted(..., key=lambda x: x[1],
reverse=True)`: earlier means the key is at least the later key. -/
def keyGeQ (p q : String × ℚ) : Prop := q.2 ≤ p.2

instance : DecidableRel keyGeQ := fun p q => inferInstanceAs (Decidable (q.2 ≤ p.2))

instance : IsTotal (String × ℚ) keyGeQ :=
  ⟨fun a b => (le_total b.2 a.2).elim Or.inl Or.inr⟩

instance : IsTrans (String × ℚ) keyGeQ :=
  ⟨fun _ _ _ h1 h2 => le_trans h2 h1⟩

/-- `top_connected` of `analyze_graph` (line 87): the centrality items sorted
stably by descending centrality, first five kept. -/
def top_connected (g : Graph) : List (String × ℚ) :=
  (List.insertionSort keyGeQ (degree_centrality g)).take 5

/-- The "Most connected entities" lines printed by `analyze_graph`
(lines 88-90): each top node with `G.degree[node]`. -/
def most_connected_display (g : Graph) : List (String × Nat) :=
  (top_connected g).map fun p => (p.1, degree g p.1)

/-- Python `str.lower` on one character, modelled for ASCII letters. -/
def lowerChar (c : Char) : Char :=
  if 'A' ≤ c && c ≤ 'Z' then Char.ofNat (c.toNat + 32) else c

/-- Python `str.lower`, modelled for ASCII text. -/
def pyLower (s : String) : String := ⟨s.data.map lowerChar⟩

/-- Whether `a` occurs as a contiguous run of `b`, scanning left to right. -/
def charsIn : List Char → List Char → Bool
  | a, [] => a.isEmpty
  | a, b :: bs => a.isPrefixOf (b :: bs) || charsIn a bs

/-- Python's substring test `a in b` on strings. -/
def pyIn (a b : String) : Bool := charsIn a.data b.data

/-- The test of lines 148-149 of `find_redundancies`: case-insensitive
substring containment in either direction, and the names differ. -/
def simPred (n1 n2 : String) : Bool :=
  (pyIn (pyLower n1) (pyLower n2) || pyIn (pyLower n2) (pyLower n1)) && n1 != n2

/-- The double loop of `find_redundancies` (lines 146-150): for each outer
index `i` in order, each inner index `j > i` in order, append the name pair
when `simPred` holds. -/
def similar_pairs : List String → List (String × String)
  | [] => []
  | n :: rest => ((rest.filter fun m => simPred n m).map fun m => (n, m)) ++ similar_pairs rest

/-- The list comprehension `[entity['name'] for entity in entities]`
(line 144): a missing `name` key raises `KeyError`. -/
def getNames : List JsonObj → Except PyErr (List String)
  | [] => .ok []
  | e :: es =>
    match e.name? with
    | none => .error (.keyError "name")
    | some n =>
      match getNames es with
      | .error err => .error err
      | .ok ns => .ok (n :: ns)

/-- The comprehension `[e for e in entities if len(e['observations']) <= 1]`
(line 160): a missing `observations` key raises `KeyError`. -/
def sparse_entities : List JsonObj → Except PyErr (List JsonObj)
  | [] => .ok []
  | e :: es =>
    match e.observations? with
    | none => .error (.keyError "observations")
    | some obs =>
      match sparse_entities es with
      | .error err => .error err
      | .ok rest => .ok (if obs.length ≤ 1 then e :: rest else rest)

/-- Embedding of the computations of `find_redundancies`
(visualize_memory.py lines 139-166; the interactive copy is identical):
the similar-name pairs and the sparse entities.  The Python function also
takes the relation list but never uses it, and prints rather than returns;
the computed values are what the claims are about. -/
def find_redundancies (entities : List JsonObj) :
    Except PyErr (List (String × String) × List JsonObj) :=
  match getNames entities with
  | .error e => .error e
  | .ok names =>
    match sparse_entities entities with
    | .error e => .error e
    | .ok sparse => .ok (similar_pairs names, sparse)

/-- Insertion-ordered keys of a Python dict built by repeated insertion over
a list (also the key order of `collections.Counter`): first occurrences, in
order. -/
def pyDictKeys : List String → List String
  | [] => []
  | x :: xs => x :: (pyDictKeys xs).filter fun y => y != x

/-- `collections.Counter(l)` as an insertion-ordered association list. -/
def pyCounter (l : List String) : List (String × Nat) :=
  (pyDictKeys l).map fun k => (k, l.count k)

/-- Python `d.get(k)` on an insertion-ordered association list. -/
def dictGet (d : List (String × Nat)) (k : String) : Option Nat :=
  (d.find? fun p => p.1 == k).map Prod.snd

/-- The comprehension `[r['from'] for r in relations]` feeding `from_counts`
in `print_analysis` (interactive script line 171). -/
def fromNames : List JsonObj → Except PyErr (List String)
  | [] => .ok []
  | r :: rs =>
    match r.fromName? with
    | none => .error (.keyError "from")
    | some f =>
      match fromNames rs with
      | .error e => .error e
      | .ok fs => .ok (f :: fs)

/-- The comprehension `[r['to'] for r in relations]` feeding `to_counts`
in `print_analysis` (interactive script line 172). -/
def toNames : List JsonObj → Except PyErr (List String)
  | [] => .ok []
  | r :: rs =>
    match r.toName? with
    | none => .error (.keyError "to")
    | some t =>
      match toNames rs with
      | .error e => .error e
      | .ok ts => .ok (t :: ts)

/-- The `total_connections` dict of `print_analysis` (interactive script
lines 175-180): every `from_counts` key with `from + to.get(e, 0)`, then the
`to_counts` keys not already present, in insertion order. -/
def total_connections (fs ts : List String) : List (String × Nat) :=
  let fc := pyCounter fs
  let tc := pyCounter ts
  (fc.map fun p => (p.1, p.2 + (dictGet tc p.1).getD 0)) ++
    tc.filter fun p => (dictGet fc p.1).isNone

/-- The descending comparison for `(name, count)` items, as `keyGeQ`. -/
def keyGeN (p q : String × Nat) : Prop := q.2 ≤ p.2

instance : DecidableRel keyGeN := fun p q => inferInstanceAs (Decidable (q.2 ≤ p.2))

instance : IsTotal (String × Nat) keyGeN :=
  ⟨fun a b => (le_total b.2 a.2).elim Or.inl Or.inr⟩

instance : IsTrans (String × Nat) keyGeN :=
  ⟨fun _ _ _ h1 h2 => le_trans h2 h1⟩

/-- The "Most connected entities" ranking of `print_analysis` (interactive
script lines 182-184): `total_connections` items sorted stably by descending
count, first five kept, each with its count. -/
def most_connected_interactive (relations : List JsonObj) :
    Except PyErr (List (String × Nat)) :=
  match fromNames relations with
  | .error e => .error e
  | .ok fs =>
    match toNames relations with
    | .error e => .error e
    | .ok ts => .ok ((List.insertionSort keyGeN (total_connections fs ts)).take 5)

/-! ## Helper notions used to state the claims -/

/-- The `from` endpoint of a relation record (defined when the field is
present, which every use below ensures). -/
def relFrom (r : JsonObj) : String := r.fromName?.getD ""

/-- The `to` endpoint of a relation record. -/
def relTo (r : JsonObj) : String := r.toName?.getD ""

/-- The `relationType` label of a relation record. -/
def relRt (r : JsonObj) : String := r.relationType?.getD ""

/-- The edge a valid relation record materializes as. -/
def mkEdge (r : JsonObj) : Edge := ⟨relFrom r, relTo r, relRt r⟩

/-- A relation record references two known entities of graph `g`: both the
`from` and `to` fields are present and both name nodes of `g`. -/
def validRel (g : Graph) (r : JsonObj) : Bool :=
  match r.fromName?, r.toName? with
  | some f, some t => (nodeNames g).contains f && (nodeNames g).contains t
  | _, _ => false

/-- Two relation records connect the same unordered pair of endpoints. -/
def samePair (r1 r2 : JsonObj) : Bool :=
  (relFrom r1 == relFrom r2 && relTo r1 == relTo r2) ||
    (relFrom r1 == relTo r2 && relTo r1 == relFrom r2)

/-- The unordered endpoint pair of record `r` is already joined by an edge
of the list `es`. -/
def pairIn (es : List Edge) (r : JsonObj) : Bool :=
  es.any (edgeMatches (relFrom r) (relTo r))

/-! ## Structural lemmas about the graph builder -/

lemma nodes_add_edge (g : Graph) (a b rt : String) :
    (add_edge g a b rt).nodes = g.nodes := by
  unfold add_edge; split <;> rfl

lemma nodeNames_add_edge (g : Graph) (a b rt : String) :
    nodeNames (add_edge g a b rt) = nodeNames g := by
  unfold nodeNames; rw [nodes_add_edge]

lemma edges_add_node (g : Graph) (n et : String) (obs : Nat) :
    (add_node g n et obs).edges = g.edges := by
  unfold add_node; split <;> rfl

lemma nodes_addEdges : ∀ (rs : List JsonObj) (g g' : Graph),
    addEdges g rs = .ok g' → g'.nodes = g.nodes := by
  intro rs
  induction rs with
  | nil => intro g g' h; cases h; rfl
  | cons r rs ih =>
    intro g g' h
    rw [addEdges] at h
    cases hf : r.fromName? with
    | none => simp only [hf] at h; exact Except.noConfusion h
    | some f =>
      simp only [hf] at h
      by_cases hcf : (nodeNames g).contains f
      · simp only [hcf, if_true] at h
        cases ht : r.toName? with
        | none => simp only [ht] at h; exact Except.noConfusion h
        | some t =>
          simp only [ht] at h
          by_cases hct : (nodeNames g).contains t
          · simp only [hct, if_true] at h
            cases hrt : r.relationType? with
            | none => simp only [hrt] at h; exact Except.noConfusion h
            | some rt =>
              simp only [hrt] at h
              have := ih _ _ h
              rw [this, nodes_add_edge]
          · simp only [hct, if_false] at h; exact ih _ _ h
      · simp only [hcf, if_false] at h; exact ih _ _ h

lemma edges_addNodes : ∀ (es : List JsonObj) (g g' : Graph),
    addNodes g es = .ok g' → g'.edges = g.edges := by
  intro es
  induction es with
  | nil => intro g g' h; cases h; rfl
  | cons e es ih =>
    intro g g' h
    rw [addNodes] at h
    cases hn : e.name? with
    | none => simp only [hn] at h; exact Except.noConfusion h
    | some n =>
      simp only [hn] at h
      cases het : e.entityType? with
      | none => simp only [het] at h; exact Except.noConfusion h
      | some et =>
        simp only [het] at h
        cases ho : e.observations? with
        | none => simp only [ho] at h; exact Except.noConfusion h
        | some obs =>
          simp only [ho] at h
          have := ih _ _ h
          rw [this, edges_add_node]

lemma validRel_iff (g : Graph) (r : JsonObj) : validRel g r = true ↔
    ∃ f t, r.fromName? = some f ∧ r.toName? = some t ∧
      (nodeNames g).contains f = true ∧ (nodeNames g).contains t = true := by
  unfold validRel
  cases hf : r.fromName? <;> cases ht : r.toName? <;> simp

lemma validRel_eq_of_nodeNames {g1 g2 : Graph} (h : nodeNames g1 = nodeNames g2)
    (r : JsonObj) : validRel g1 r = validRel g2 r := by
  unfold validRel
  simp only [h]

@[simp] lemma pairIn_nil (r : JsonObj) : pairIn [] r = false := rfl

lemma pairIn_append_single (es : List Edge) (e0 : Edge) (r : JsonObj) :
    pairIn (es ++ [e0]) r = (pairIn es r || edgeMatches (relFrom r) (relTo r) e0) := by
  simp [pairIn, List.any_append]

lemma edgeMatches_ite (a b rt x y : String) (e : Edge) :
    edgeMatches x y (if edgeMatches a b e then { e with relation_type := rt } else e) =
      edgeMatches x y e := by
  split <;> rfl

lemma edges_add_edge_dup (g : Graph) (a b rt : String)
    (h : g.edges.any (edgeMatches a b) = true) :
    (add_edge g a b rt).edges.length = g.edges.length ∧
      ∀ r, pairIn (add_edge g a b rt).edges r = pairIn g.edges r := by
  unfold add_edge
  rw [if_pos h]
  refine ⟨by simp, ?_⟩
  intro r
  simp only [pairIn, List.any_map]
  congr 1
  funext e
  simp [Function.comp, edgeMatches_ite]

lemma edges_add_edge_new (g : Graph) (a b rt : String)
    (h : g.edges.any (edgeMatches a b) = false) :
    (add_edge g a b rt).edges = g.edges ++ [⟨a, b, rt⟩] := by
  unfold add_edge
  rw [if_neg (by simp [h])]

lemma addEdges_length_le : ∀ (rs : List JsonObj) (g g' : Graph),
    addEdges g rs = .ok g' → g'.edges.length ≤ g.edges.length + rs.length := by
  intro rs
  induction rs with
  | nil => intro g g' h; cases h; simp
  | cons r rs ih =>
    intro g g' h
    simp only [List.length_cons]
    rw [addEdges] at h
    cases hf : r.fromName? with
    | none => simp only [hf] at h; exact Except.noConfusion h
    | some f =>
      simp only [hf] at h
      by_cases hcf : (nodeNames g).contains f
      · simp only [hcf, if_true] at h
        cases ht : r.toName? with
        | none => simp only [ht] at h; exact Except.noConfusion h
        | some t =>
          simp only [ht] at h
          by_cases hct : (nodeNames g).contains t
          · simp only [hct, if_true] at h
            cases hrt : r.relationType? with
            | none => simp only [hrt] at h; exact Except.noConfusion h
            | some rt =>
              simp only [hrt] at h
              have hle := ih _ _ h
              by_cases hdup : g.edges.any (edgeMatches f t) = true
              · have hlen := (edges_add_edge_dup g f t rt hdup).1
                rw [hlen] at hle; omega
              · have hg2 := edges_add_edge_new g f t rt (by simpa using hdup)
                rw [hg2] at hle
                simp only [List.length_append, List.length_cons, List.length_nil] at hle
                omega
          · simp only [hct, if_false] at h
            have := ih _ _ h; omega
      · simp only [hcf, if_false] at h
        have := ih _ _ h; omega

lemma addEdges_edges_of_good : ∀ (rs : List JsonObj) (g g' : Graph),
    addEdges g rs = .ok g' →
    (∀ r ∈ rs, validRel g r = true) →
    (∀ r ∈ rs, pairIn g.edges r = false) →
    rs.Pairwise (fun a b => samePair a b = false) →
    g'.edges = g.edges ++ rs.map mkEdge := by
  intro rs
  induction rs with
  | nil => intro g g' h _ _ _; cases h; simp
  | cons r rs ih =>
    intro g g' h hv hnew hpw
    rw [addEdges] at h
    have hvr := hv r (List.mem_cons_self r rs)
    obtain ⟨f, t, hf, ht, hcf, hct⟩ := (validRel_iff g r).mp hvr
    simp only [hf, hcf, if_true, ht, hct] at h
    cases hrt : r.relationType? with
    | none => simp only [hrt] at h; exact Except.noConfusion h
    | some rt =>
      simp only [hrt] at h
      have hdup : g.edges.any (edgeMatches f t) = false := by
        have hpi : pairIn g.edges r = g.edges.any (edgeMatches f t) := by
          simp [pairIn, relFrom, relTo, hf, ht]
        rw [← hpi]
        exact hnew r (List.mem_cons_self r rs)
      have hg2 : (add_edge g f t rt).edges = g.edges ++ [⟨f, t, rt⟩] :=
        edges_add_edge_new g f t rt hdup
      have hmk : mkEdge r = ⟨f, t, rt⟩ := by
        simp [mkEdge, relFrom, relTo, relRt, hf, ht, hrt]
      rw [List.pairwise_cons] at hpw
      have hmatch : ∀ r' : JsonObj,
          edgeMatches (relFrom r') (relTo r') ⟨f, t, rt⟩ = samePair r r' := by
        intro r'
        simp [edgeMatches, samePair, relFrom, relTo, hf, ht]
      have hrec := ih (add_edge g f t rt) g' h ?hv2 ?hnew2 hpw.2
      · rw [hrec, hg2]
        simp [List.map_cons, hmk]
      case hv2 =>
        intro r' hr'
        rw [validRel_eq_of_nodeNames (nodeNames_add_edge g f t rt) r']
        exact hv r' (List.mem_cons_of_mem r hr')
      case hnew2 =>
        intro r' hr'
        rw [hg2, pairIn_append_single, hmatch r',
          hnew r' (List.mem_cons_of_mem r hr'), hpw.1 r' hr']
        rfl

lemma addEdges_length_lt_of_not_good : ∀ (rs : List JsonObj) (g g' : Graph),
    addEdges g rs = .ok g' →
    ¬ ((∀ r ∈ rs, validRel g r = true) ∧ (∀ r ∈ rs, pairIn g.edges r = false) ∧
        rs.Pairwise fun a b => samePair a b = false) →
    g'.edges.length < g.edges.length + rs.length := by
  intro rs
  induction rs with
  | nil =>
    intro g g' h hbad
    exact absurd ⟨by simp, by simp, List.Pairwise.nil⟩ hbad
  | cons r rs ih =>
    intro g g' h hbad
    simp only [List.length_cons]
    rw [addEdges] at h
    cases hf : r.fromName? with
    | none => simp only [hf] at h; exact Except.noConfusion h
    | some f =>
      simp only [hf] at h
      by_cases hcf : (nodeNames g).contains f
      case neg =>
        simp only [hcf, if_false] at h
        have := addEdges_length_le rs g g' h
        omega
      case pos =>
        simp only [hcf, if_true] at h
        cases ht : r.toName? with
        | none => simp only [ht] at h; exact Except.noConfusion h
        | some t =>
          simp only [ht] at h
          by_cases hct : (nodeNames g).contains t
          case neg =>
            simp only [hct, if_false] at h
            have := addEdges_length_le rs g g' h
            omega
          case pos =>
            simp only [hct, if_true] at h
            cases hrt : r.relationType? with
            | none => simp only [hrt] at h; exact Except.noConfusion h
            | some rt =>
              simp only [hrt] at h
              by_cases hdup : g.edges.any (edgeMatches f t) = true
              case pos =>
                have hlen := (edges_add_edge_dup g f t rt hdup).1
                have hle := addEdges_length_le rs (add_edge g f t rt) g' h
                rw [hlen] at hle
                omega
              case neg =>
                have hdup' : g.edges.any (edgeMatches f t) = false := by simpa using hdup
                have hg2 := edges_add_edge_new g f t rt hdup'
                have hmatch : ∀ r' : JsonObj,
                    edgeMatches (relFrom r') (relTo r') ⟨f, t, rt⟩ = samePair r r' := by
                  intro r'
                  simp [edgeMatches, samePair, relFrom, relTo, hf, ht]
                have hbad2 : ¬ ((∀ r' ∈ rs, validRel (add_edge g f t rt) r' = true) ∧
                    (∀ r' ∈ rs, pairIn (add_edge g f t rt).edges r' = false) ∧
                    rs.Pairwise fun a b => samePair a b = false) := by
                  rintro ⟨h1, h2, h3⟩
                  apply hbad
                  refine ⟨?_, ?_, ?_⟩
                  · intro r' hr'
                    rcases List.mem_cons.mp hr' with rfl | hr'
                    · exact (validRel_iff g r').mpr ⟨f, t, hf, ht, hcf, hct⟩
                    · rw [← validRel_eq_of_nodeNames (nodeNames_add_edge g f t rt) r']
                      exact h1 r' hr'
                  · intro r' hr'
                    rcases List.mem_cons.mp hr' with rfl | hr'
                    · simpa [pairIn, relFrom, relTo, hf, ht] using hdup'
                    · have hp := h2 r' hr'
                      rw [hg2, pairIn_append_single] at hp
                      exact (Bool.or_eq_false_iff.mp hp).1
                  · rw [List.pairwise_cons]
                    refine ⟨?_, h3⟩
                    intro r' hr'
                    have hp := h2 r' hr'
                    rw [hg2, pairIn_append_single] at hp
                    have h4 := (Bool.or_eq_false_iff.mp hp).2
                    rwa [hmatch r'] at h4
                have hlt := ih (add_edge g f t rt) g' h hbad2
                rw [hg2] at hlt
                simp only [List.length_append, List.length_cons, List.length_nil] at hlt
                omega

lemma addEdges_length_eq_iff (rs : List JsonObj) (g g' : Graph)
    (h : addEdges g rs = .ok g') :
    g'.edges.length = g.edges.length + rs.length ↔
      (∀ r ∈ rs, validRel g r = true) ∧ (∀ r ∈ rs, pairIn g.edges r = false) ∧
        rs.Pairwise (fun a b => samePair a b = false) := by
  constructor
  · intro heq
    by_contra hbad
    have := addEdges_length_lt_of_not_good rs g g' h hbad
    omega
  · intro hgood
    have := addEdges_edges_of_good rs g g' h hgood.1 hgood.2.1 hgood.2.2
    rw [this]
    simp

/-! ## Concrete records used by the concrete instances below -/

/-- Entity record A with two observations. -/
def entA : JsonObj :=
  { type? := some "entity", name? := some "A", entityType? := some "person",
    observations? := some ["x", "y"] }

/-- Entity record B with no observations. -/
def entB : JsonObj :=
  { type? := some "entity", name? := some "B", entityType? := some "person",
    observations? := some [] }

/-- Relation record A-B labelled `knows`. -/
def relAB1 : JsonObj :=
  { type? := some "relation", fromName? := some "A", toName? := some "B",
    relationType? := some "knows" }

/-- A second relation record on the same A-B pair, labelled `likes`. -/
def relAB2 : JsonObj :=
  { type? := some "relation", fromName? := some "A", toName? := some "B",
    relationType? := some "likes" }

/-- A dangling relation record: `Z` is not an entity. -/
def relAZ : JsonObj :=
  { type? := some "relation", fromName? := some "A", toName? := some "Z",
    relationType? := some "knows" }

/-- The graph built from `[entA, entB]` and `[relAB1, relAB2]`: the second
relation only overwrote the edge label. -/
def graphAB : Graph :=
  ⟨[⟨"A", "person", 2⟩, ⟨"B", "person", 0⟩], [⟨"A", "B", "likes"⟩]⟩

/-- The graph built from `[entA, entB]` and `[relAB1]`. -/
def graphAB1 : Graph :=
  ⟨[⟨"A", "person", 2⟩, ⟨"B", "person", 0⟩], [⟨"A", "B", "knows"⟩]⟩

/-- The graph built from `[entA, entB]` and no relations. -/
def graphABnoEdges : Graph :=
  ⟨[⟨"A", "person", 2⟩, ⟨"B", "person", 0⟩], []⟩

/-! ## C1 -/

/-- C1, amended: for every successful run of `create_graph`, the number of
edges is at most the number of relation records, and the two are equal if and
only if every relation record references two known entities AND no two
relation records connect the same unordered endpoint pair.  (The claim's
plain "if and only if every relation references two known entities" fails:
see the counterexample with two relations on the same pair.) -/
theorem C1_edge_count_bound (entities relations : List JsonObj) (g : Graph)
    (h : create_graph entities relations = .ok g) :
    g.edges.length ≤ relations.length ∧
      (g.edges.length = relations.length ↔
        (∀ r ∈ relations, validRel g r = true) ∧
          relations.Pairwise fun a b => samePair a b = false) := by
  unfold create_graph at h
  cases hn : addNodes {} entities with
  | error e => rw [hn] at h; exact Except.noConfusion h
  | ok g0 =>
    rw [hn] at h
    have he0 : g0.edges = [] := edges_addNodes entities {} g0 hn
    have hnodes : nodeNames g = nodeNames g0 := by
      unfold nodeNames
      rw [nodes_addEdges relations g0 g h]
    have hvg : ∀ r, validRel g r = validRel g0 r :=
      fun r => validRel_eq_of_nodeNames hnodes r
    constructor
    · have hle := addEdges_length_le relations g0 g h
      rw [he0] at hle
      simpa using hle
    · have hiff := addEdges_length_eq_iff relations g0 g h
      simp only [he0, List.length_nil, Nat.zero_add, pairIn_nil] at hiff
      rw [hiff]
      constructor
      · rintro ⟨h1, _, h3⟩
        exact ⟨fun r hr => (hvg r).trans (h1 r hr), h3⟩
      · rintro ⟨h1, h3⟩
        exact ⟨fun r hr => (hvg r).symm.trans (h1 r hr), fun r hr => trivial, h3⟩

/-- C1, witness: a concrete successful run with one valid relation, where the
bound and the equivalence are realized. -/
theorem C1_edge_count_bound_witness :
    graphAB1.edges.length ≤ [relAB1].length ∧
      (graphAB1.edges.length = [relAB1].length ↔
        (∀ r ∈ [relAB1], validRel graphAB1 r = true) ∧
          List.Pairwise (fun a b => samePair a b = false) [relAB1]) :=
  C1_edge_count_bound [entA, entB] [relAB1] graphAB1 rfl

/-- C1, counterexample to the claim as stated: with two relation records on
the same pair A-B, every relation references two known entities, yet the
built graph has 1 edge while there are 2 relation records, so equality fails
although the claimed equivalent condition holds. -/
theorem C1_edge_count_bound_cex :
    create_graph [entA, entB] [relAB1, relAB2] = .ok graphAB ∧
      validRel graphAB relAB1 = true ∧ validRel graphAB relAB2 = true ∧
      graphAB.edges.length = 1 ∧ [relAB1, relAB2].length = 2 :=
  ⟨rfl, by decide, by decide, rfl, rfl⟩

/-! ## C4 -/

/-- A relation record the edge loop drops without error: its `from` endpoint
is present but names no node, or its `from` endpoint is a node and its `to`
endpoint is present but names no node. -/
def isDroppedRel (g : Graph) (r : JsonObj) : Bool :=
  match r.fromName? with
  | none => false
  | some f =>
    if (nodeNames g).contains f then
      match r.toName? with
      | none => false
      | some t => !(nodeNames g).contains t
    else true

/-- The number of relation records the edge loop drops — the summary count
the claim says is returned alongside the Graph. -/
def droppedCount (g : Graph) (rs : List JsonObj) : Nat :=
  rs.countP fun r => isDroppedRel g r

lemma isDroppedRel_eq_of_nodeNames {g1 g2 : Graph} (h : nodeNames g1 = nodeNames g2)
    (r : JsonObj) : isDroppedRel g1 r = isDroppedRel g2 r := by
  unfold isDroppedRel
  simp only [h]

lemma addEdges_cons (g : Graph) (p : JsonObj) (rest : List JsonObj) :
    addEdges g (p :: rest) =
      match p.fromName? with
      | none => .error (.keyError "from")
      | some f =>
        if (nodeNames g).contains f then
          match p.toName? with
          | none => .error (.keyError "to")
          | some t =>
            if (nodeNames g).contains t then
              match p.relationType? with
              | none => .error (.keyError "relationType")
              | some rt => addEdges (add_edge g f t rt) rest
            else addEdges g rest
        else addEdges g rest := rfl

lemma addEdges_drop_middle (r : JsonObj) (post : List JsonObj) :
    ∀ (pre : List JsonObj) (g : Graph), isDroppedRel g r = true →
      addEdges g (pre ++ r :: post) = addEdges g (pre ++ post) := by
  intro pre
  induction pre with
  | nil =>
    intro g hd
    rw [List.nil_append, List.nil_append, addEdges_cons g r post]
    unfold isDroppedRel at hd
    cases hf : r.fromName? with
    | none => simp only [hf] at hd; exact Bool.noConfusion hd
    | some f =>
      simp only [hf] at hd ⊢
      by_cases hcf : (nodeNames g).contains f = true
      · rw [if_pos hcf] at hd
        rw [if_pos hcf]
        cases ht : r.toName? with
        | none => simp only [ht] at hd; exact Bool.noConfusion hd
        | some t =>
          simp only [ht] at hd ⊢
          have hct : (nodeNames g).contains t = false := by simpa using hd
          rw [if_neg (by rw [hct]; exact Bool.false_ne_true)]
      · rw [if_neg hcf]
  | cons p pre ih =>
    intro g hd
    simp only [List.cons_append]
    rw [addEdges_cons g p (pre ++ r :: post), addEdges_cons g p (pre ++ post)]
    cases hf : p.fromName? with
    | none => rfl
    | some f =>
      simp only
      by_cases hcf : (nodeNames g).contains f = true
      · rw [if_pos hcf, if_pos hcf]
        cases ht : p.toName? with
        | none => rfl
        | some t =>
          simp only
          by_cases hct : (nodeNames g).contains t = true
          · rw [if_pos hct, if_pos hct]
            cases hrt : p.relationType? with
            | none => rfl
            | some rt =>
              simp only
              exact ih (add_edge g f t rt)
                (by rw [isDroppedRel_eq_of_nodeNames (nodeNames_add_edge g f t rt) r]; exact hd)
          · rw [if_neg hct, if_neg hct]
            exact ih g hd
      · rw [if_neg hcf, if_neg hcf]
        exact ih g hd

/-- C4, amended: a relation record whose `from` or `to` endpoint is not among
the built nodes is skipped without error and without affecting the rest of
processing — `create_graph` returns the same result with or without it, at
any position.  In particular no dropped-relation count is part of the result
(the claim's returned summary count does not exist: see the counterexample,
where inputs with dropped counts 1 and 0 give identical outputs). -/
theorem C4_dropped_silently_skipped (entities pre post : List JsonObj) (r : JsonObj)
    (g0 : Graph) (h0 : create_graph entities [] = .ok g0)
    (hd : isDroppedRel g0 r = true) :
    create_graph entities (pre ++ r :: post) = create_graph entities (pre ++ post) := by
  unfold create_graph at h0 ⊢
  cases hn : addNodes {} entities with
  | error e => exact Except.noConfusion (by simpa only [hn] using h0)
  | ok gN =>
    simp only [hn] at h0 ⊢
    have hgn : (Except.ok gN : Except PyErr Graph) = Except.ok g0 := h0
    injection hgn with hgn
    subst hgn
    exact addEdges_drop_middle r post pre _ hd

/-- C4, witness: dropping the dangling relation record `relAZ` from the input
leaves the output of `create_graph` unchanged. -/
theorem C4_dropped_silently_skipped_witness :
    create_graph [entA, entB] ([relAB1] ++ relAZ :: []) =
      create_graph [entA, entB] ([relAB1] ++ []) :=
  C4_dropped_silently_skipped [entA, entB] [relAB1] [] relAZ graphABnoEdges rfl (by decide)

/-- C4, counterexample to the claim as stated: the two inputs have dropped
counts 1 and 0, yet `create_graph` returns identical values, so no summary
count of dropped relations is returned alongside the Graph. -/
theorem C4_dropped_silently_skipped_cex :
    droppedCount graphABnoEdges [relAB1, relAZ] = 1 ∧
      droppedCount graphABnoEdges [relAB1] = 0 ∧
      create_graph [entA, entB] [relAB1, relAZ] = create_graph [entA, entB] [relAB1] :=
  ⟨by decide, by decide, rfl⟩

/-! ## C10 -/

lemma fromNames_ok_eq : ∀ (rs : List JsonObj) (fs : List String),
    fromNames rs = .ok fs → fs = rs.map relFrom := by
  intro rs
  induction rs with
  | nil => intro fs h; cases h; rfl
  | cons r rs ih =>
    intro fs h
    rw [fromNames] at h
    cases hf : r.fromName? with
    | none => simp only [hf] at h; exact Except.noConfusion h
    | some f =>
      simp only [hf] at h
      cases hrec : fromNames rs with
      | error e => simp only [hrec] at h; exact Except.noConfusion h
      | ok fs0 =>
        simp only [hrec] at h
        injection h with h
        subst h
        rw [List.map_cons, ← ih fs0 hrec]
        simp [relFrom, hf]

lemma toNames_ok_eq : ∀ (rs : List JsonObj) (ts : List String),
    toNames rs = .ok ts → ts = rs.map relTo := by
  intro rs
  induction rs with
  | nil => intro ts h; cases h; rfl
  | cons r rs ih =>
    intro ts h
    rw [toNames] at h
    cases ht : r.toName? with
    | none => simp only [ht] at h; exact Except.noConfusion h
    | some t =>
      simp only [ht] at h
      cases hrec : toNames rs with
      | error e => simp only [hrec] at h; exact Except.noConfusion h
      | ok ts0 =>
        simp only [hrec] at h
        injection h with h
        subst h
        rw [List.map_cons, ← ih ts0 hrec]
        simp [relTo, ht]

lemma mem_pyDictKeys : ∀ (l : List String) (k : String), k ∈ pyDictKeys l ↔ k ∈ l := by
  intro l
  induction l with
  | nil => intro k; rw [pyDictKeys]
  | cons x xs ih =>
    intro k
    rw [pyDictKeys]
    simp only [List.mem_cons, List.mem_filter, bne_iff_ne, ne_eq]
    constructor
    · rintro (rfl | ⟨hk, _⟩)
      · exact Or.inl rfl
      · exact Or.inr ((ih k).mp hk)
    · rintro (rfl | hk)
      · exact Or.inl rfl
      · by_cases hxk : k = x
        · exact Or.inl hxk
        · exact Or.inr ⟨(ih k).mpr hk, hxk⟩

lemma find?_counter_map (l : List String) (k : String) :
    ∀ ks : List String,
      ((ks.map fun x => (x, l.count x)).find? fun p => p.1 == k) =
        if k ∈ ks then some (k, l.count k) else none := by
  intro ks
  induction ks with
  | nil => simp
  | cons x ks ih =>
    simp only [List.map_cons]
    by_cases hx : x = k
    · subst hx
      rw [List.find?_cons_of_pos _ (by simp)]
      simp
    · rw [List.find?_cons_of_neg _ (by simp [hx])]
      rw [ih]
      simp [List.mem_cons, Ne.symm hx]

lemma dictGet_pyCounter (l : List String) (k : String) :
    dictGet (pyCounter l) k = if k ∈ l then some (l.count k) else none := by
  unfold dictGet pyCounter
  rw [find?_counter_map l k (pyDictKeys l)]
  by_cases hk : k ∈ l
  · rw [if_pos ((mem_pyDictKeys l k).mpr hk), if_pos hk]
    rfl
  · rw [if_neg (fun hc => hk ((mem_pyDictKeys l k).mp hc)), if_neg hk]
    rfl

lemma mem_pyCounter {l : List String} {p : String × Nat} (hp : p ∈ pyCounter l) :
    p.1 ∈ l ∧ p.2 = l.count p.1 := by
  unfold pyCounter at hp
  rcases List.mem_map.mp hp with ⟨k, hk, hkp⟩
  cases hkp
  exact ⟨(mem_pyDictKeys l k).mp hk, rfl⟩

lemma total_connections_value (fs ts : List String) :
    ∀ p ∈ total_connections fs ts, p.2 = fs.count p.1 + ts.count p.1 := by
  intro p hp
  unfold total_connections at hp
  rcases List.mem_append.mp hp with hp | hp
  · rcases List.mem_map.mp hp with ⟨q, hq, hqp⟩
    obtain ⟨hq1, hq2⟩ := mem_pyCounter hq
    cases hqp
    show q.2 + (dictGet (pyCounter ts) q.1).getD 0 = fs.count q.1 + ts.count q.1
    rw [hq2, dictGet_pyCounter]
    by_cases hmem : q.1 ∈ ts
    · rw [if_pos hmem]
      rfl
    · rw [if_neg hmem, List.count_eq_zero.mpr hmem]
      rfl
  · have hfil := List.mem_filter.mp hp
    obtain ⟨hq1, hq2⟩ := mem_pyCounter hfil.1
    have hnone := hfil.2
    rw [dictGet_pyCounter] at hnone
    by_cases hmem : p.1 ∈ fs
    · rw [if_pos hmem] at hnone
      exact absurd hnone (by simp)
    · rw [List.count_eq_zero.mpr hmem, hq2]
      omega

lemma degree_map_mkEdge : ∀ (rs : List JsonObj) (n : String),
    (List.map (incid n) (rs.map mkEdge)).sum =
      (rs.map relFrom).count n + (rs.map relTo).count n := by
  intro rs n
  induction rs with
  | nil => rfl
  | cons r rs ih =>
    simp only [List.map_cons, List.sum_cons, List.count_cons]
    rw [ih]
    by_cases h1 : relFrom r = n <;> by_cases h2 : relTo r = n <;>
      simp [incid, mkEdge, h1, h2] <;> omega

lemma degree_eq_counts (g : Graph) (rs : List JsonObj) (hedges : g.edges = rs.map mkEdge)
    (n : String) : degree g n = (rs.map relFrom).count n + (rs.map relTo).count n := by
  unfold degree
  rw [hedges]
  exact degree_map_mkEdge rs n

/-- C10, amended: the static ranking (graph degrees) and the interactive
ranking (per-record endpoint counts) need not agree — see the counterexample,
where a duplicated relation gives counts 2 against degrees 1.  They do agree
whenever every relation record references two known entities and no two
relation records connect the same unordered endpoint pair: then every entry
of the interactive script's `total_connections` table carries exactly the
graph degree of that entity, so both scripts rank the same quantities. -/
theorem C10_connection_counts_agree (entities relations : List JsonObj) (g : Graph)
    (h : create_graph entities relations = .ok g)
    (hv : ∀ r ∈ relations, validRel g r = true)
    (hpw : relations.Pairwise fun a b => samePair a b = false)
    (fs ts : List String)
    (hfs : fromNames relations = .ok fs) (hts : toNames relations = .ok ts)
    (p : String × Nat) (hp : p ∈ total_connections fs ts) :
    p.2 = degree g p.1 := by
  unfold create_graph at h
  cases hn : addNodes {} entities with
  | error e => exact Except.noConfusion (by simpa only [hn] using h)
  | ok g0 =>
    simp only [hn] at h
    have he0 : g0.edges = [] := edges_addNodes entities {} g0 hn
    have hnodes : nodeNames g = nodeNames g0 := by
      unfold nodeNames
      rw [nodes_addEdges relations g0 g h]
    have hv0 : ∀ r ∈ relations, validRel g0 r = true := fun r hr =>
      (validRel_eq_of_nodeNames hnodes r).symm.trans (hv r hr)
    have hedges : g.edges = relations.map mkEdge := by
      have hgood := addEdges_edges_of_good relations g0 g h hv0
        (fun r hr => by rw [he0]; rfl) hpw
      rw [he0] at hgood
      simpa using hgood
    rw [total_connections_value fs ts p hp,
      fromNames_ok_eq relations fs hfs, toNames_ok_eq relations ts hts,
      degree_eq_counts g relations hedges p.1]

/-- C10, witness: on the single valid relation A-B, the interactive table
entry for A carries 1, which equals A's graph degree. -/
theorem C10_connection_counts_agree_witness :
    ("A", 1) ∈ total_connections ["A"] ["B"] ∧ 1 = degree graphAB1 "A" :=
  ⟨by decide, C10_connection_counts_agree [entA, entB] [relAB1] graphAB1 rfl
    (by decide) (by decide) ["A"] ["B"] rfl rfl ("A", 1) (by decide)⟩

/-- C10, counterexample to the claim as stated: with the relation A-B
duplicated, the static script displays A and B with 1 connection each (graph
degree) while the interactive script displays them with 2 connections each
(record counts), so the two top-5 rankings differ. -/
theorem C10_connection_counts_agree_cex :
    create_graph [entA, entB] [relAB1, relAB2] = .ok graphAB ∧
      most_connected_interactive [relAB1, relAB2] = .ok [("A", 2), ("B", 2)] ∧
      most_connected_display graphAB = [("A", 1), ("B", 1)] ∧
      ([("A", 1), ("B", 1)] : List (String × Nat)) ≠ [("A", 2), ("B", 2)] := by
  refine ⟨rfl, rfl, ?_, by decide⟩
  show most_connected_display
    ⟨[⟨"A", "person", 2⟩, ⟨"B", "person", 0⟩], [⟨"A", "B", "likes"⟩]⟩ = [("A", 1), ("B", 1)]
  have hA : degree ⟨[⟨"A", "person", 2⟩, ⟨"B", "person", 0⟩], [⟨"A", "B", "likes"⟩]⟩ "A" = 1 := rfl
  have hB : degree ⟨[⟨"A", "person", 2⟩, ⟨"B", "person", 0⟩], [⟨"A", "B", "likes"⟩]⟩ "B" = 1 := rfl
  have hc : degree_centrality
      ⟨[⟨"A", "person", 2⟩, ⟨"B", "person", 0⟩], [⟨"A", "B", "likes"⟩]⟩ = [("A", 1), ("B", 1)] := by
    norm_num [degree_centrality, hA, hB]
  norm_num [most_connected_display, top_connected, hc, hA, hB,
    List.insertionSort, List.orderedInsert, keyGeQ]

/-! ## C8 and C2 -/

/-- The records of the non-blank lines, in input order (the claim's "JSON
objects of the non-blank lines"). -/
def parsedRecords (ls : List RawLine) : List JsonObj :=
  ls.filterMap fun l => if pyStrip l.raw = "" then none else l.parsed

/-- C8: when every line is blank or parses, `load_memory_file` returns
exactly the records of type `entity` and those of type `relation`, each in
input order, ignoring blank lines and records of unrecognized or missing
type without error. -/
theorem C8_load_partitions_records (ls : List RawLine)
    (hok : ∀ l ∈ ls, pyStrip l.raw = "" ∨ l.parsed.isSome = true) :
    load_memory_file ls =
      .ok ((parsedRecords ls).filter (fun d => d.type? == some "entity"),
        (parsedRecords ls).filter (fun d => d.type? == some "relation")) := by
  induction ls with
  | nil => rfl
  | cons l ls ih =>
    have ihok := ih fun x hx => hok x (List.mem_cons_of_mem l hx)
    by_cases hb : pyStrip l.raw = ""
    · have hpr : parsedRecords (l :: ls) = parsedRecords ls := by
        unfold parsedRecords
        rw [List.filterMap_cons]
        simp [hb]
      rw [load_memory_file, if_pos hb, ihok, hpr]
    · rcases hok l (List.mem_cons_self l ls) with h | h
      · exact absurd h hb
      · cases hp : l.parsed with
        | none => rw [hp] at h; exact Bool.noConfusion h
        | some d =>
          have hpr : parsedRecords (l :: ls) = d :: parsedRecords ls := by
            unfold parsedRecords
            rw [List.filterMap_cons]
            simp [hb, hp]
          rw [load_memory_file, if_neg hb]
          simp only [hp]
          rw [ihok, hpr]
          dsimp only
          by_cases he : d.type? = some "entity"
          · rw [if_pos he]
            simp [List.filter_cons, he]
          · rw [if_neg he]
            by_cases hr : d.type? = some "relation"
            · rw [if_pos hr]
              simp [List.filter_cons, he, hr]
            · rw [if_neg hr]
              simp [List.filter_cons, he, hr]

/-- An input line holding an entity record. -/
def lineEntity : RawLine :=
  ⟨"\x7b\"type\": \"entity\", \"name\": \"A\", \"entityType\": \"person\", \"observations\": [\"x\", \"y\"]\x7d\n",
    some entA⟩

/-- An input line holding a relation record. -/
def lineRelation : RawLine :=
  ⟨"\x7b\"type\": \"relation\", \"from\": \"A\", \"to\": \"B\", \"relationType\": \"knows\"\x7d\n",
    some relAB1⟩

/-- A blank input line. -/
def lineBlank : RawLine := ⟨"   \n", none⟩

/-- An input line holding a record of unrecognized type. -/
def lineUnknown : RawLine := ⟨"\x7b\"type\": \"meta\"\x7d\n", some { type? := some "meta" }⟩

/-- An input line whose text is not valid JSON. -/
def lineBad : RawLine := ⟨" not json \n", none⟩

/-- C8, witness: a concrete input with a blank line, an entity, an
unknown-type record and a relation. -/
theorem C8_load_partitions_records_witness :
    load_memory_file [lineBlank, lineEntity, lineUnknown, lineRelation] =
      .ok ((parsedRecords [lineBlank, lineEntity, lineUnknown, lineRelation]).filter
          (fun d => d.type? == some "entity"),
        (parsedRecords [lineBlank, lineEntity, lineUnknown, lineRelation]).filter
          (fun d => d.type? == some "relation")) :=
  C8_load_partitions_records [lineBlank, lineEntity, lineUnknown, lineRelation] (by decide)

/-- C2, amended: a non-blank line that is not valid JSON makes
`load_memory_file` fail fast with the JSON decode error of that first bad
line — no partial result is produced and the lines after it are never
reached.  The error carries the bad line's stripped content and the position
inside that one-line document (always line 1), not the line's number in the
input file (see the counterexample). -/
theorem C2_bad_line_aborts_load (pre : List RawLine) (bad : RawLine) (rest : List RawLine)
    (hpre : ∀ l ∈ pre, pyStrip l.raw = "" ∨ l.parsed.isSome = true)
    (hnb : ¬ pyStrip bad.raw = "") (hbad : bad.parsed = none) :
    load_memory_file (pre ++ bad :: rest) = .error (.jsonDecode (pyStrip bad.raw) 1) := by
  induction pre with
  | nil =>
    rw [List.nil_append, load_memory_file, if_neg hnb]
    simp only [hbad]
  | cons l pre ih =>
    have ihr := ih fun x hx => hpre x (List.mem_cons_of_mem l hx)
    simp only [List.cons_append]
    rw [load_memory_file]
    by_cases hb : pyStrip l.raw = ""
    · rw [if_pos hb]
      exact ihr
    · rw [if_neg hb]
      rcases hpre l (List.mem_cons_self l _) with h | h
      · exact absurd h hb
      · cases hp : l.parsed with
        | none => rw [hp] at h; exact Bool.noConfusion h
        | some d =>
          simp only [hp]
          rw [ihr]

/-- C2, witness: with a good line and a blank line before it, the bad third
line aborts the whole load with its decode error. -/
theorem C2_bad_line_aborts_load_witness :
    load_memory_file ([lineEntity, lineBlank] ++ lineBad :: []) =
      .error (.jsonDecode (pyStrip lineBad.raw) 1) :=
  C2_bad_line_aborts_load [lineEntity, lineBlank] lineBad [] (by decide) (by decide) rfl

/-- C2, counterexample to the claim as stated: the bad line is line 3 of the
file and its raw content is " not json \n", but the raised decode error
carries position 1 (the line number inside the one-line parsed document) and
the stripped text "not json" — not the file line number and raw content. -/
theorem C2_bad_line_aborts_load_cex :
    load_memory_file [lineEntity, lineBlank, lineBad] = .error (.jsonDecode "not json" 1) ∧
      PyErr.jsonDecode "not json" 1 ≠ PyErr.jsonDecode lineBad.raw 3 :=
  ⟨rfl, by decide⟩

/-! ## C3 and C9 -/

lemma addNodes_missing_obs (e : JsonObj) (post : List JsonObj)
    (hn : e.name?.isSome = true) (het : e.entityType?.isSome = true)
    (hobs : e.observations? = none) :
    ∀ (pre : List JsonObj) (g : Graph),
      (∀ x ∈ pre, x.name?.isSome = true ∧ x.entityType?.isSome = true ∧
        x.observations?.isSome = true) →
      addNodes g (pre ++ e :: post) = .error (.keyError "observations") := by
  intro pre
  induction pre with
  | nil =>
    intro g _
    obtain ⟨n, hn'⟩ := Option.isSome_iff_exists.mp hn
    obtain ⟨et, het'⟩ := Option.isSome_iff_exists.mp het
    rw [List.nil_append, addNodes]
    simp only [hn', het', hobs]
  | cons x pre ih =>
    intro g hx
    obtain ⟨hxn, hxet, hxobs⟩ := hx x (List.mem_cons_self x _)
    obtain ⟨n, hn'⟩ := Option.isSome_iff_exists.mp hxn
    obtain ⟨et, het'⟩ := Option.isSome_iff_exists.mp hxet
    obtain ⟨obs, hobs'⟩ := Option.isSome_iff_exists.mp hxobs
    rw [List.cons_append, addNodes]
    simp only [hn', het', hobs']
    exact ih (add_node g n et obs.length) fun y hy => hx y (List.mem_cons_of_mem x hy)

lemma getNames_ok : ∀ (l : List JsonObj),
    (∀ x ∈ l, x.name?.isSome = true) →
    getNames l = .ok (l.map fun x => x.name?.getD "") := by
  intro l
  induction l with
  | nil => intro _; rfl
  | cons x l ih =>
    intro hx
    obtain ⟨n, hn'⟩ := Option.isSome_iff_exists.mp (hx x (List.mem_cons_self x _))
    rw [getNames]
    simp only [hn', ih fun y hy => hx y (List.mem_cons_of_mem x hy), List.map_cons]
    simp [hn']

lemma sparse_entities_missing_obs (e : JsonObj) (post : List JsonObj)
    (hobs : e.observations? = none) :
    ∀ pre : List JsonObj,
      (∀ x ∈ pre, x.observations?.isSome = true) →
      sparse_entities (pre ++ e :: post) = .error (.keyError "observations") := by
  intro pre
  induction pre with
  | nil =>
    intro _
    rw [List.nil_append, sparse_entities]
    simp only [hobs]
  | cons x pre ih =>
    intro hx
    obtain ⟨obs, hobs'⟩ := Option.isSome_iff_exists.mp (hx x (List.mem_cons_self x _))
    rw [List.cons_append, sparse_entities]
    simp only [hobs', ih fun y hy => hx y (List.mem_cons_of_mem x hy)]

lemma sparse_entities_ok : ∀ (l : List JsonObj),
    (∀ x ∈ l, x.observations?.isSome = true) →
    sparse_entities l = .ok (l.filter fun e => (e.observations?.getD []).length ≤ 1) := by
  intro l
  induction l with
  | nil => intro _; rfl
  | cons x l ih =>
    intro hx
    obtain ⟨obs, hobs'⟩ := Option.isSome_iff_exists.mp (hx x (List.mem_cons_self x _))
    rw [sparse_entities]
    simp only [hobs', ih fun y hy => hx y (List.mem_cons_of_mem x hy), List.filter_cons]
    by_cases hlen : obs.length ≤ 1
    · rw [if_pos hlen, if_pos (by simp [hobs', hlen])]
    · rw [if_neg hlen, if_neg (by simp [hobs', hlen])]

/-- C3, corrected: an entity record that lacks the `observations` field makes
both `create_graph` and `find_redundancies` fail with `KeyError
'observations'` — the record is NOT treated as having an empty observation
sequence (the claim's behavior does not occur; see the counterexample). -/
theorem C3_missing_observations_raises (pre post rels : List JsonObj) (e : JsonObj)
    (hpre : ∀ x ∈ pre, x.name?.isSome = true ∧ x.entityType?.isSome = true ∧
      x.observations?.isSome = true)
    (hn : e.name?.isSome = true) (het : e.entityType?.isSome = true)
    (hobs : e.observations? = none)
    (hpost : ∀ x ∈ post, x.name?.isSome = true) :
    create_graph (pre ++ e :: post) rels = .error (.keyError "observations") ∧
      find_redundancies (pre ++ e :: post) = .error (.keyError "observations") := by
  constructor
  · unfold create_graph
    rw [addNodes_missing_obs e post hn het hobs pre {} hpre]
  · unfold find_redundancies
    have hnames : ∀ x ∈ pre ++ e :: post, x.name?.isSome = true := by
      intro x hx
      rcases List.mem_append.mp hx with hx | hx
      · exact (hpre x hx).1
      · rcases List.mem_cons.mp hx with rfl | hx
        · exact hn
        · exact hpost x hx
    rw [getNames_ok _ hnames,
      sparse_entities_missing_obs e post hobs pre fun x hx => (hpre x hx).2.2]

/-- An entity record with the `observations` field missing. -/
def entNoObs : JsonObj :=
  { type? := some "entity", name? := some "C", entityType? := some "place" }

/-- C3, witness: with well-formed records around it, the record lacking
`observations` makes both functions raise `KeyError 'observations'`. -/
theorem C3_missing_observations_raises_witness :
    create_graph ([entA] ++ entNoObs :: [entB]) [] = .error (.keyError "observations") ∧
      find_redundancies ([entA] ++ entNoObs :: [entB]) = .error (.keyError "observations") :=
  C3_missing_observations_raises [entA] [entB] [] entNoObs (by decide) (by decide)
    (by decide) rfl (by decide)

/-- C3, counterexample to the claim as stated: on the entity record lacking
`observations`, the pipeline fails with `KeyError` instead of treating the
record as having observation count 0. -/
theorem C3_missing_observations_raises_cex :
    create_graph [entNoObs] [] = .error (.keyError "observations") ∧
      find_redundancies [entNoObs] = .error (.keyError "observations") :=
  ⟨rfl, rfl⟩

/-- C9: when every entity record carries its `name` and `observations`
fields, `find_redundancies` returns as sparse exactly the entities whose
observation count is at most 1, in the original entity order (so an entity
with two or more observations is never flagged). -/
theorem C9_sparse_entities_exact (entities : List JsonObj)
    (h : ∀ e ∈ entities, e.name?.isSome = true ∧ e.observations?.isSome = true) :
    find_redundancies entities =
      .ok (similar_pairs (entities.map fun e => e.name?.getD ""),
        entities.filter fun e => (e.observations?.getD []).length ≤ 1) := by
  unfold find_redundancies
  rw [getNames_ok entities fun x hx => (h x hx).1,
    sparse_entities_ok entities fun x hx => (h x hx).2]

/-- An entity record with exactly one observation. -/
def entC1 : JsonObj :=
  { type? := some "entity", name? := some "C", entityType? := some "place",
    observations? := some ["z"] }

/-- C9, witness: A (2 observations) is not flagged, B (0) and C (1) are, in
input order. -/
theorem C9_sparse_entities_exact_witness :
    find_redundancies [entA, entB, entC1] =
      .ok (similar_pairs ([entA, entB, entC1].map fun e => e.name?.getD ""),
        [entA, entB, entC1].filter fun e => (e.observations?.getD []).length ≤ 1) :=
  C9_sparse_entities_exact [entA, entB, entC1] (by decide)

/-! ## C6 -/

/-- The claim's index formalization of the similar-name scan: every index
pair `i < j`, outer index ascending then inner index ascending, is flagged
exactly when `simPred` holds of the two names. -/
def pairsSpec (names : List String) : List (String × String) :=
  (List.range names.length).flatMap fun i =>
    ((List.range names.length).filter fun j => i < j).filterMap fun j =>
      if simPred (names.getD i "") (names.getD j "") then
        some (names.getD i "", names.getD j "") else none

lemma filterMap_range_getD (xs : List String) (p : String → Bool)
    (g : String → String × String) :
    (List.range xs.length).filterMap
        (fun j => if p (xs.getD j "") then some (g (xs.getD j "")) else none) =
      (xs.filter p).map g := by
  induction xs with
  | nil => rfl
  | cons x xs ih =>
    rw [List.length_cons, List.range_succ_eq_map, List.filterMap_cons, List.filterMap_map]
    have hcomp : ((fun j => if p ((x :: xs).getD j "") then some (g ((x :: xs).getD j ""))
        else none) ∘ Nat.succ) =
        fun j => if p (xs.getD j "") then some (g (xs.getD j "")) else none := rfl
    rw [hcomp, ih, List.filter_cons]
    by_cases hp : p x
    · simp [hp]
    · simp [hp]

lemma similar_pairs_eq_pairsSpec : ∀ names : List String,
    similar_pairs names = pairsSpec names := by
  intro names
  induction names with
  | nil => rfl
  | cons x xs ih =>
    have hspec : pairsSpec (x :: xs) =
        ((xs.filter fun m => simPred x m).map fun m => (x, m)) ++ pairsSpec xs := by
      unfold pairsSpec
      rw [List.length_cons, List.range_succ_eq_map, List.flatMap_cons, List.flatMap_map]
      congr 1
      · rw [List.filter_cons_of_neg (by simp), List.filter_map]
        have h1 : ((fun j => decide (0 < j)) ∘ Nat.succ) = fun _ => true := by
          funext j
          simp
        rw [h1, List.filter_true, List.filterMap_map]
        exact filterMap_range_getD xs (fun m => simPred x m) fun m => (x, m)
      · congr 1
        funext i
        rw [List.filter_cons_of_neg (by simp), List.filter_map]
        have h2 : ((fun j => decide (Nat.succ i < j)) ∘ Nat.succ) = fun j => decide (i < j) := by
          funext j
          simp [Nat.succ_lt_succ_iff]
        rw [h2, List.filterMap_map]
        rfl
    rw [similar_pairs, hspec, ih]

lemma getNames_ok_eq : ∀ (l : List JsonObj) (ns : List String),
    getNames l = .ok ns → ns = l.map fun e => e.name?.getD "" := by
  intro l
  induction l with
  | nil => intro ns h; cases h; rfl
  | cons e l ih =>
    intro ns h
    rw [getNames] at h
    cases hn : e.name? with
    | none => simp only [hn] at h; exact Except.noConfusion h
    | some n =>
      simp only [hn] at h
      cases hrec : getNames l with
      | error err => simp only [hrec] at h; exact Except.noConfusion h
      | ok ns0 =>
        simp only [hrec] at h
        injection h with h
        subst h
        rw [List.map_cons, ← ih ns0 hrec]
        simp [hn]

/-- C6: the similar-name scan flags exactly the index pairs `i < j` whose
names are unequal and whose lowercased forms contain one another, in
ascending outer-then-inner index order (`pairsSpec`); `find_redundancies`
reports exactly this list for the entity names; and on the entities Alice,
alice2, Bob exactly the pair (Alice, alice2) is flagged. -/
theorem C6_similar_pairs_exact :
    (∀ names : List String, similar_pairs names = pairsSpec names) ∧
      (∀ (entities : List JsonObj) (ps : List (String × String)) (ss : List JsonObj),
        find_redundancies entities = .ok (ps, ss) →
          ps = pairsSpec (entities.map fun e => e.name?.getD "")) ∧
      similar_pairs ["Alice", "alice2", "Bob"] = [("Alice", "alice2")] := by
  refine ⟨similar_pairs_eq_pairsSpec, ?_, by decide⟩
  intro entities ps ss h
  unfold find_redundancies at h
  cases hne : getNames entities with
  | error e => simp only [hne] at h; exact Except.noConfusion h
  | ok names =>
    simp only [hne] at h
    cases hse : sparse_entities entities with
    | error e => simp only [hse] at h; exact Except.noConfusion h
    | ok sparse =>
      simp only [hse] at h
      injection h with h
      have hps : similar_pairs names = ps := congrArg Prod.fst h
      rw [← hps, getNames_ok_eq entities names hne, similar_pairs_eq_pairsSpec]

/-- The entity record named Alice. -/
def entAlice : JsonObj :=
  { type? := some "entity", name? := some "Alice", entityType? := some "person",
    observations? := some [] }

/-- The entity record named alice2. -/
def entAlice2 : JsonObj :=
  { type? := some "entity", name? := some "alice2", entityType? := some "person",
    observations? := some [] }

/-- The entity record named Bob. -/
def entBob : JsonObj :=
  { type? := some "entity", name? := some "Bob", entityType? := some "person",
    observations? := some [] }

/-- C6, witness: on the Alice/alice2/Bob entities, `find_redundancies`
returns the (Alice, alice2) pair, which is the index-specification list. -/
theorem C6_similar_pairs_exact_witness :
    [("Alice", "alice2")] =
      pairsSpec ([entAlice, entAlice2, entBob].map fun e => e.name?.getD "") :=
  C6_similar_pairs_exact.2.1 [entAlice, entAlice2, entBob] [("Alice", "alice2")]
    [entAlice, entAlice2, entBob] rfl

/-! ## C5 and C7 -/

lemma length_degree_centrality (g : Graph) :
    (degree_centrality g).length = g.nodes.length := by
  unfold degree_centrality
  split <;> simp

lemma fst_degree_centrality (g : Graph) :
    (degree_centrality g).map Prod.fst = nodeNames g := by
  unfold degree_centrality nodeNames
  split <;> simp

/-- C5, amended: `nx.degree_centrality` never divides by zero on a graph with
0 or 1 nodes — the divisor `nodeCount - 1` is only used when `nodeCount > 1`
— but it assigns every node of such a graph the centrality 1 (NetworkX's
convention for `len(G) <= 1`), not 0 (see the counterexample). -/
theorem C5_small_graph_centrality_one (g : Graph) (h : g.nodes.length ≤ 1) :
    ∀ p ∈ degree_centrality g, p.2 = 1 := by
  intro p hp
  unfold degree_centrality at hp
  rw [if_pos h] at hp
  rcases List.mem_map.mp hp with ⟨n, _, hn⟩
  rw [← hn]

/-- A one-node graph. -/
def graphSingleA : Graph := ⟨[⟨"A", "person", 3⟩], []⟩

/-- C5, witness: the one-node graph satisfies the hypothesis and its node's
centrality entry is 1. -/
theorem C5_small_graph_centrality_one_witness :
    graphSingleA.nodes.length ≤ 1 ∧ (("A", (1 : ℚ))).2 = 1 :=
  ⟨by decide, C5_small_graph_centrality_one graphSingleA (by decide) ("A", (1 : ℚ))
    (by rw [show degree_centrality graphSingleA = [("A", 1)] from rfl]; exact List.mem_singleton.mpr rfl)⟩

/-- C5, counterexample to the claim as stated: the single node of a one-node
graph is assigned centrality 1, not 0. -/
theorem C5_small_graph_centrality_one_cex :
    degree_centrality graphSingleA = [("A", 1)] ∧ (1 : ℚ) ≠ 0 :=
  ⟨rfl, one_ne_zero⟩

lemma filter_takeWhile_dropWhile {α : Type} (q p : α → Bool) (l : List α) :
    (l.takeWhile q).filter p ++ (l.dropWhile q).filter p = l.filter p := by
  rw [← List.filter_append, List.takeWhile_append_dropWhile]

lemma filter_orderedInsert_key (v : ℚ) (a : String × ℚ) (l : List (String × ℚ)) :
    (List.orderedInsert keyGeQ a l).filter (fun p => p.2 == v) =
      if a.2 == v then a :: l.filter (fun p => p.2 == v)
      else l.filter (fun p => p.2 == v) := by
  rw [List.orderedInsert_eq_take_drop, List.filter_append, List.filter_cons]
  by_cases hv : (a.2 == v) = true
  · rw [if_pos hv, if_pos hv]
    have htw : (l.takeWhile fun b => decide ¬ keyGeQ a b).filter (fun p => p.2 == v) = [] := by
      rw [List.filter_eq_nil_iff]
      intro b hb
      have hb' := List.mem_takeWhile_imp hb
      have hnb : ¬ keyGeQ a b := of_decide_eq_true hb'
      have hlt : a.2 < b.2 := lt_of_not_le hnb
      have hav : a.2 = v := by exact_mod_cast eq_of_beq hv
      rw [hav] at hlt
      simp [ne_of_gt hlt]
    rw [htw, List.nil_append]
    rw [← filter_takeWhile_dropWhile (fun b => decide ¬ keyGeQ a b) (fun p => p.2 == v) l, htw,
      List.nil_append]
  · rw [if_neg hv, if_neg hv]
    rw [← filter_takeWhile_dropWhile (fun b => decide ¬ keyGeQ a b) (fun p => p.2 == v) l]

lemma filter_insertionSort_key (v : ℚ) : ∀ l : List (String × ℚ),
    (List.insertionSort keyGeQ l).filter (fun p => p.2 == v) =
      l.filter (fun p => p.2 == v) := by
  intro l
  induction l with
  | nil => rfl
  | cons a l ih =>
    rw [List.insertionSort, filter_orderedInsert_key, ih, List.filter_cons]

/-- C7: `top_connected` keeps min 5 nodeCount entries; it is sorted by
descending centrality; every kept entry's centrality is at least every
dropped entry's centrality; within each centrality value the kept entries are
an initial segment of the full centrality list in its order (insertion
order), so ties are broken by insertion order; and the centrality list ranges
over all nodes of the graph. -/
theorem C7_top_connected_spec (g : Graph) :
    (top_connected g).length = min 5 g.nodes.length ∧
      List.Sorted keyGeQ (top_connected g) ∧
      (∀ p ∈ top_connected g, ∀ q ∈ degree_centrality g,
        q ∉ top_connected g → q.2 ≤ p.2) ∧
      (∀ v : ℚ, ∃ t, (top_connected g).filter (fun p => p.2 == v) ++ t =
        (degree_centrality g).filter fun p => p.2 == v) ∧
      (degree_centrality g).map Prod.fst = nodeNames g := by
  have hsorted : List.Sorted keyGeQ (List.insertionSort keyGeQ (degree_centrality g)) :=
    List.sorted_insertionSort keyGeQ (degree_centrality g)
  refine ⟨?_, ?_, ?_, ?_, fst_degree_centrality g⟩
  · rw [top_connected, List.length_take, List.length_insertionSort, length_degree_centrality]
  · exact List.Pairwise.sublist (List.take_sublist 5 _) hsorted
  · intro p hp q hq hqn
    have hq' : q ∈ List.insertionSort keyGeQ (degree_centrality g) :=
      (List.mem_insertionSort keyGeQ).mpr hq
    rw [← List.take_append_drop 5 (List.insertionSort keyGeQ (degree_centrality g))] at hq' hsorted
    rcases List.mem_append.mp hq' with hq'' | hq''
    · exact absurd hq'' hqn
    · exact (List.pairwise_append.mp hsorted).2.2 p hp q hq''
  · intro v
    refine ⟨(List.drop 5 (List.insertionSort keyGeQ (degree_centrality g))).filter
      (fun p => p.2 == v), ?_⟩
    rw [top_connected, ← List.filter_append,
      List.take_append_drop 5 (List.insertionSort keyGeQ (degree_centrality g)),
      filter_insertionSort_key]

/-- A six-node graph with one edge A-B, so that A and B have centrality 1/5
and the rest 0, and F falls outside the top five. -/
def graphSix : Graph :=
  ⟨[⟨"A", "t", 0⟩, ⟨"B", "t", 0⟩, ⟨"C", "t", 0⟩, ⟨"D", "t", 0⟩, ⟨"E", "t", 0⟩, ⟨"F", "t", 0⟩],
    [⟨"A", "B", "k"⟩]⟩

/-- C7, witness: on the six-node graph, A (centrality 1/5) is kept, F
(centrality 0) is dropped, and the boundary inequality 0 ≤ 1/5 follows from
the theorem. -/
theorem C7_top_connected_spec_witness :
    ("A", (1 : ℚ)/5) ∈ top_connected graphSix ∧
      ("F", (0 : ℚ)) ∈ degree_centrality graphSix ∧
      ("F", (0 : ℚ)) ∉ top_connected graphSix ∧
      (("F", (0 : ℚ))).2 ≤ (("A", (1 : ℚ)/5)).2 := by
  have hA : degree graphSix "A" = 1 := rfl
  have hB : degree graphSix "B" = 1 := rfl
  have hC : degree graphSix "C" = 0 := rfl
  have hD : degree graphSix "D" = 0 := rfl
  have hE : degree graphSix "E" = 0 := rfl
  have hF : degree graphSix "F" = 0 := rfl
  have hnodes : graphSix.nodes =
      [⟨"A", "t", 0⟩, ⟨"B", "t", 0⟩, ⟨"C", "t", 0⟩, ⟨"D", "t", 0⟩, ⟨"E", "t", 0⟩,
        ⟨"F", "t", 0⟩] := rfl
  have hc : degree_centrality graphSix =
      [("A", 1/5), ("B", 1/5), ("C", 0), ("D", 0), ("E", 0), ("F", 0)] := by
    norm_num [degree_centrality, hnodes, hA, hB, hC, hD, hE, hF]
  have ht : top_connected graphSix =
      [("A", 1/5), ("B", 1/5), ("C", 0), ("D", 0), ("E", 0)] := by
    rw [top_connected, hc]
    norm_num [List.insertionSort, List.orderedInsert, keyGeQ]
  have hFA : ("F" : String) ≠ "A" := by decide
  have hFB : ("F" : String) ≠ "B" := by decide
  have hFC : ("F" : String) ≠ "C" := by decide
  have hFD : ("F" : String) ≠ "D" := by decide
  have hFE : ("F" : String) ≠ "E" := by decide
  have hpA : ("A", (1 : ℚ)/5) ∈ top_connected graphSix := by
    rw [ht]
    exact List.mem_cons_self _ _
  have hqF : ("F", (0 : ℚ)) ∈ degree_centrality graphSix := by
    rw [hc]
    simp
  have hnF : ("F", (0 : ℚ)) ∉ top_connected graphSix := by
    rw [ht]
    simp [hFA, hFB, hFC, hFD, hFE]
  exact ⟨hpA, hqF, hnF, (C7_top_connected_spec graphSix).2.2.1 _ hpA _ hqF hnF⟩
